import Mathlib

/-!
Verification of the certificate-nomenclature batch tool.

The repository holds two variants of one Python script:
 * `src/script.py` (variant A: one text field), and
 * `src/Certificate for Winners/script.py` (variant B: name/event/rank fields).

Python strings are modelled as lists of Unicode code points (`PyStr`),
floats produced by the layout arithmetic as rationals, and the effectful
environment (filesystem, font loading, PDF canvas) as explicit oracles or
explicit command lists.  Every definition below is translated from the
source of the scripts (the same helper serves both variants when the two
scripts share the code verbatim).
-/

/-- A Python string: the list of its Unicode code points. -/
abbrev PyStr := List Nat

/-- The code points that Python's `str.strip()` / `str.split()` treat as
whitespace (the `Py_UNICODE_ISSPACE` set). -/
def isSpace (c : Nat) : Bool :=
  (9 ≤ c && c ≤ 13) || (28 ≤ c && c ≤ 32) || c == 133 || c == 160 ||
  c == 5760 || (8192 ≤ c && c ≤ 8202) || c == 8232 || c == 8233 ||
  c == 8239 || c == 8287 || c == 12288

/-- Membership in `isSpace` spelled out as a proposition, for arithmetic reasoning. -/
theorem isSpace_iff (c : Nat) :
    isSpace c = true ↔
      ((9 ≤ c ∧ c ≤ 13) ∨ (28 ≤ c ∧ c ≤ 32) ∨ c = 133 ∨ c = 160 ∨
       c = 5760 ∨ (8192 ≤ c ∧ c ≤ 8202) ∨ c = 8232 ∨ c = 8233 ∨
       c = 8239 ∨ c = 8287 ∨ c = 12288) := by
  simp only [isSpace, Bool.or_eq_true, Bool.and_eq_true, decide_eq_true_eq,
    Nat.beq_eq_true_eq]
  omega

/-- Negated membership, `isSpace = false`, spelled out as a proposition. -/
theorem isSpace_eq_false_iff (c : Nat) :
    isSpace c = false ↔
      ¬((9 ≤ c ∧ c ≤ 13) ∨ (28 ≤ c ∧ c ≤ 32) ∨ c = 133 ∨ c = 160 ∨
        c = 5760 ∨ (8192 ≤ c ∧ c ≤ 8202) ∨ c = 8232 ∨ c = 8233 ∨
        c = 8239 ∨ c = 8287 ∨ c = 12288) := by
  rw [← isSpace_iff]
  cases isSpace c <;> simp

/-- ASCII upper-casing of one code point: the effect of Python's
`str.capitalize()` on a first character, restricted to the ASCII range the
spec guarantees. -/
def upperAscii (c : Nat) : Nat := if 97 ≤ c ∧ c ≤ 122 then c - 32 else c

/-- ASCII lower-casing of one code point: the effect of Python's
`str.capitalize()` on non-first characters, restricted to ASCII. -/
def lowerAscii (c : Nat) : Nat := if 65 ≤ c ∧ c ≤ 90 then c + 32 else c

theorem upperAscii_idem (c : Nat) : upperAscii (upperAscii c) = upperAscii c := by
  unfold upperAscii
  by_cases h : 97 ≤ c ∧ c ≤ 122 <;> simp [h] <;> omega

theorem lowerAscii_idem (c : Nat) : lowerAscii (lowerAscii c) = lowerAscii c := by
  unfold lowerAscii
  by_cases h : 65 ≤ c ∧ c ≤ 90 <;> simp [h] <;> omega

theorem isSpace_upperAscii {c : Nat} (h : isSpace c = false) :
    isSpace (upperAscii c) = false := by
  unfold upperAscii
  rw [isSpace_eq_false_iff] at h ⊢
  split <;> omega

theorem isSpace_lowerAscii {c : Nat} (h : isSpace c = false) :
    isSpace (lowerAscii c) = false := by
  unfold lowerAscii
  rw [isSpace_eq_false_iff] at h ⊢
  split <;> omega

/-- Python `word.capitalize()`: first character upper-cased, the remaining
characters lower-cased (ASCII-style, per spec section 4.1). -/
def capitalize : PyStr → PyStr
  | [] => []
  | c :: cs => upperAscii c :: cs.map lowerAscii

theorem capitalize_idem (w : PyStr) : capitalize (capitalize w) = capitalize w := by
  cases w with
  | nil => rfl
  | cons c cs =>
    simp only [capitalize, upperAscii_idem, List.map_map, List.cons.injEq, true_and]
    induction cs with
    | nil => rfl
    | cons d ds ih => simp [lowerAscii_idem, ih]

/-- Python `s.strip()`: drop leading and trailing whitespace. -/
def strip (s : PyStr) : PyStr :=
  ((s.dropWhile isSpace).reverse.dropWhile isSpace).reverse

theorem dropWhile_length_le (p : Nat → Bool) (l : List Nat) :
    (l.dropWhile p).length ≤ l.length := by
  induction l with
  | nil => simp
  | cons d ds ih =>
    by_cases hd : p d <;> simp [List.dropWhile_cons, hd] <;> omega

theorem dropWhile_head_false {p : Nat → Bool} :
    ∀ {l : List Nat} {a : Nat} {rest : List Nat},
      l.dropWhile p = a :: rest → p a = false
  | [], _, _, h => by simp at h
  | b :: l, a, rest, h => by
    by_cases hb : p b = true
    · rw [List.dropWhile_cons_of_pos hb] at h
      exact dropWhile_head_false h
    · rw [List.dropWhile_cons_of_neg (by simp [hb])] at h
      cases h
      simpa using hb

/-- Python `s.split()` (no separator argument): the maximal runs of
non-whitespace characters, in order; leading, trailing and repeated
whitespace produce no tokens. -/
def pySplit : PyStr → List PyStr
  | [] => []
  | c :: cs =>
    if isSpace c then pySplit cs
    else (c :: cs.takeWhile (fun d => !isSpace d)) ::
      pySplit (cs.dropWhile (fun d => !isSpace d))
termination_by s => s.length
decreasing_by
  · simp
  · have hle := dropWhile_length_le (fun d => !isSpace d) cs
    simp only [List.length_cons]
    omega

/-- Python `' '.join(ws)`: the words joined with a single space (32). -/
def joinSpace : List PyStr → PyStr
  | [] => []
  | [w] => w
  | w :: ws => w ++ 32 :: joinSpace ws

/-- From both scripts, `title_case_name`:
`' '.join(w.capitalize() for w in name.strip().split())`. -/
def title_case_name (s : PyStr) : PyStr :=
  joinSpace ((pySplit (strip s)).map capitalize)

theorem pySplit_nil : pySplit [] = [] := by
  simp [pySplit]

theorem pySplit_cons_space {c : Nat} (h : isSpace c = true) (cs : PyStr) :
    pySplit (c :: cs) = pySplit cs := by
  rw [pySplit]
  simp [h]

theorem pySplit_cons_word {c : Nat} (h : isSpace c = false) (cs : PyStr) :
    pySplit (c :: cs) =
      (c :: cs.takeWhile (fun d => !isSpace d)) ::
        pySplit (cs.dropWhile (fun d => !isSpace d)) := by
  rw [pySplit]
  simp [h]

theorem takeWhile_mem_imp {p : Nat → Bool} :
    ∀ {l : List Nat} {x : Nat}, x ∈ l.takeWhile p → p x = true
  | [], _, hx => by simp [List.takeWhile_nil] at hx
  | a :: l, x, hx => by
    by_cases ha : p a = true
    · rw [List.takeWhile_cons_of_pos ha] at hx
      rcases List.mem_cons.mp hx with rfl | hx
      · exact ha
      · exact takeWhile_mem_imp hx
    · rw [List.takeWhile_cons_of_neg (by simp [ha])] at hx
      exact absurd hx (by simp)

theorem pySplit_allSpace : ∀ s : PyStr, (∀ c ∈ s, isSpace c = true) → pySplit s = []
  | [], _ => pySplit_nil
  | c :: cs, h => by
    rw [pySplit_cons_space (h c (by simp))]
    exact pySplit_allSpace cs (fun d hd => h d (List.mem_cons_of_mem _ hd))

theorem pySplit_space_append :
    ∀ t s : PyStr, (∀ c ∈ t, isSpace c = true) → pySplit (t ++ s) = pySplit s
  | [], _, _ => rfl
  | c :: t, s, h => by
    rw [List.cons_append, pySplit_cons_space (h c (by simp))]
    exact pySplit_space_append t s (fun d hd => h d (List.mem_cons_of_mem _ hd))

theorem pySplit_append_space :
    ∀ s t : PyStr, (∀ c ∈ t, isSpace c = true) → pySplit (s ++ t) = pySplit s
  | [], t, ht => by rw [List.nil_append, pySplit_allSpace t ht, pySplit_nil]
  | c :: cs, t, ht => by
    by_cases hc : isSpace c = true
    · rw [List.cons_append, pySplit_cons_space hc, pySplit_cons_space hc]
      exact pySplit_append_space cs t ht
    · replace hc : isSpace c = false := by simpa using hc
      rw [List.cons_append, pySplit_cons_word hc, pySplit_cons_word hc]
      rcases hd : cs.dropWhile (fun d => !isSpace d) with _ | ⟨a, rest⟩
      · have hall : ∀ x ∈ cs, (fun d => !isSpace d) x = true :=
          List.dropWhile_eq_nil_iff.mp hd
        have ht1 : t.takeWhile (fun d => !isSpace d) = [] := by
          cases t with
          | nil => rfl
          | cons b r =>
            rw [List.takeWhile_cons_of_neg]
            simp [ht b (by simp)]
        have ht2 : t.dropWhile (fun d => !isSpace d) = t := by
          cases t with
          | nil => rfl
          | cons b r =>
            rw [List.dropWhile_cons_of_neg]
            simp [ht b (by simp)]
        have htoks : (cs ++ t).takeWhile (fun d => !isSpace d) = cs := by
          rw [List.takeWhile_append_of_pos hall, ht1, List.append_nil]
        have hdrops : (cs ++ t).dropWhile (fun d => !isSpace d) = t := by
          rw [List.dropWhile_append_of_pos hall, ht2]
        rw [htoks, hdrops, List.takeWhile_eq_self_iff.mpr hall, pySplit_nil,
          pySplit_allSpace t ht]
      · have hsub : cs = cs.takeWhile (fun d => !isSpace d) ++ (a :: rest) := by
          conv_lhs => rw [← List.takeWhile_append_dropWhile (fun d => !isSpace d) cs, hd]
        have htw : ∀ x ∈ cs.takeWhile (fun d => !isSpace d), (fun d => !isSpace d) x = true :=
          fun x hx => takeWhile_mem_imp hx
        have htake : (cs ++ t).takeWhile (fun d => !isSpace d)
            = cs.takeWhile (fun d => !isSpace d) := by
          conv_lhs => rw [hsub]
          rw [List.append_assoc, List.takeWhile_append_of_pos htw, List.cons_append,
            List.takeWhile_cons_of_neg]
          · rw [List.append_nil]
          · simpa using dropWhile_head_false hd
        have hdrop : (cs ++ t).dropWhile (fun d => !isSpace d) = (a :: rest) ++ t := by
          conv_lhs => rw [hsub]
          rw [List.append_assoc, List.dropWhile_append_of_pos htw, List.cons_append,
            List.dropWhile_cons_of_neg]
          simpa using dropWhile_head_false hd
        rw [htake, hdrop, pySplit_append_space (a :: rest) t ht]
termination_by s _ _ => s.length
decreasing_by
  · simp
  · have hle := dropWhile_length_le (fun d => !isSpace d) cs
    rw [hd] at hle
    simp only [List.length_cons] at hle ⊢
    omega

/-- Stripping first does not change the split: `s.strip().split() = s.split()`. -/
theorem pySplit_strip (s : PyStr) : pySplit (strip s) = pySplit s := by
  have h1 : pySplit s = pySplit (s.dropWhile isSpace) := by
    conv_lhs => rw [← List.takeWhile_append_dropWhile isSpace s]
    exact pySplit_space_append _ _ (fun c hc => takeWhile_mem_imp hc)
  have h2 : s.dropWhile isSpace
      = strip s ++ ((s.dropWhile isSpace).reverse.takeWhile isSpace).reverse := by
    unfold strip
    conv_lhs =>
      rw [← List.reverse_reverse (s.dropWhile isSpace),
        ← List.takeWhile_append_dropWhile isSpace (s.dropWhile isSpace).reverse,
        List.reverse_append]
  have h3 : pySplit (s.dropWhile isSpace) = pySplit (strip s) := by
    rw [h2]
    apply pySplit_append_space
    intro c hc
    rw [List.mem_reverse] at hc
    exact takeWhile_mem_imp hc
  rw [h1, h3]

/-- Every token produced by `split()` is a nonempty run of non-whitespace. -/
theorem pySplit_tokens :
    ∀ s : PyStr, ∀ w ∈ pySplit s, w ≠ [] ∧ ∀ c ∈ w, isSpace c = false
  | [], w, hw => by rw [pySplit_nil] at hw; exact absurd hw (by simp)
  | c :: cs, w, hw => by
    by_cases hc : isSpace c = true
    · rw [pySplit_cons_space hc] at hw
      exact pySplit_tokens cs w hw
    · replace hc : isSpace c = false := by simpa using hc
      rw [pySplit_cons_word hc] at hw
      rcases List.mem_cons.mp hw with rfl | hw
      · refine ⟨by simp, ?_⟩
        intro d hd
        rcases List.mem_cons.mp hd with rfl | hd
        · exact hc
        · simpa using takeWhile_mem_imp hd
      · exact pySplit_tokens (cs.dropWhile (fun d => !isSpace d)) w hw
termination_by s _ _ => s.length
decreasing_by
  · simp
  · have hle := dropWhile_length_le (fun d => !isSpace d) cs
    simp only [List.length_cons]
    omega

/-- The function `split` is a left inverse of `' '.join` on lists of nonempty
whitespace-free tokens. -/
theorem pySplit_joinSpace :
    ∀ ws : List PyStr,
      (∀ w ∈ ws, w ≠ [] ∧ ∀ c ∈ w, isSpace c = false) →
      pySplit (joinSpace ws) = ws
  | [], _ => pySplit_nil
  | [w], h => by
    obtain ⟨hne, hcs⟩ := h w (by simp)
    rcases w with _ | ⟨c, cs⟩
    · exact absurd rfl hne
    · have hcw : isSpace c = false := hcs c (by simp)
      have hall : ∀ x ∈ cs, (fun d => !isSpace d) x = true := by
        intro x hx
        simp [hcs x (List.mem_cons_of_mem _ hx)]
      show pySplit (c :: cs) = [c :: cs]
      rw [pySplit_cons_word hcw, List.takeWhile_eq_self_iff.mpr hall,
        List.dropWhile_eq_nil_iff.mpr hall, pySplit_nil]
  | w :: w2 :: ws, h => by
    obtain ⟨hne, hcs⟩ := h w (by simp)
    rcases w with _ | ⟨c, cs⟩
    · exact absurd rfl hne
    · have hcw : isSpace c = false := hcs c (by simp)
      have hall : ∀ x ∈ cs, (fun d => !isSpace d) x = true := by
        intro x hx
        simp [hcs x (List.mem_cons_of_mem _ hx)]
      have htw32 : List.takeWhile (fun d => !isSpace d) (32 :: joinSpace (w2 :: ws)) = [] := by
        rw [List.takeWhile_cons_of_neg]
        decide
      have hdw32 : List.dropWhile (fun d => !isSpace d) (32 :: joinSpace (w2 :: ws))
          = 32 :: joinSpace (w2 :: ws) := by
        rw [List.dropWhile_cons_of_neg]
        decide
      show pySplit (c :: (cs ++ 32 :: joinSpace (w2 :: ws))) = (c :: cs) :: w2 :: ws
      rw [pySplit_cons_word hcw, List.takeWhile_append_of_pos hall,
        List.dropWhile_append_of_pos hall, htw32, hdw32, List.append_nil,
        pySplit_cons_space (by decide),
        pySplit_joinSpace (w2 :: ws) (fun x hx => h x (List.mem_cons_of_mem _ hx))]

/-- C1:`title_case_name` trims, splits on whitespace runs, capitalizes each
token (first character upper, remainder lower) and rejoins with single
spaces; whitespace-only input yields the empty string.  The first conjunct
also shows the leading `strip()` in the source is redundant: splitting
already ignores boundary whitespace. -/
theorem C1_title_case_name_spec (s : PyStr) :
    title_case_name s = joinSpace ((pySplit s).map capitalize)
    ∧ ((∀ c ∈ s, isSpace c = true) → title_case_name s = []) := by
  constructor
  · unfold title_case_name
    rw [pySplit_strip]
  · intro h
    unfold title_case_name
    rw [pySplit_strip, pySplit_allSpace s h]
    rfl

/-- Witness for C1 at a whitespace-only input (space, tab, space). -/
theorem C1_title_case_name_spec_witness :
    title_case_name [32, 9, 32] = [] :=
  (C1_title_case_name_spec [32, 9, 32]).2 (by decide)

/-- C10: the name normalizer is idempotent on every input string. -/
theorem C10_title_case_name_idempotent (s : PyStr) :
    title_case_name (title_case_name s) = title_case_name s := by
  unfold title_case_name
  simp only [pySplit_strip]
  have htok : ∀ w ∈ (pySplit s).map capitalize,
      w ≠ [] ∧ ∀ c ∈ w, isSpace c = false := by
    intro w hw
    rcases List.mem_map.mp hw with ⟨v, hv, rfl⟩
    obtain ⟨hne, hc⟩ := pySplit_tokens s v hv
    rcases v with _ | ⟨c, cs⟩
    · exact absurd rfl hne
    · refine ⟨by simp [capitalize], ?_⟩
      intro d hd
      rcases List.mem_cons.mp hd with rfl | hd
      · exact isSpace_upperAscii (hc c (by simp))
      · rcases List.mem_map.mp hd with ⟨e, he, rfl⟩
        exact isSpace_lowerAscii (hc e (List.mem_cons_of_mem _ he))
  rw [pySplit_joinSpace ((pySplit s).map capitalize) htok, List.map_map]
  have hcap : capitalize ∘ capitalize = capitalize := funext capitalize_idem
  rw [hcap]

/-!
Text compositing.  Both scripts measure text with `draw.textsize` when the
installed Pillow still has it, else with `font.getbbox`, then draw at
`(x - text_width/2, y)` in black.  The Pillow drawing surface is modelled
as the source raster size plus the ordered list of issued text-draw
commands; the measurement environment is an oracle recording which API is
available and what either API returns.
-/

/-- Measurement oracle for one loaded font: whether the legacy
`draw.textsize` exists, what it returns, and what `font.getbbox` returns
(as the 4-tuple x0, y0, x1, y1). -/
structure FontMetrics where
  textsizeAvailable : Bool
  textsize : PyStr → ℚ × ℚ
  getbbox : PyStr → ℚ × ℚ × ℚ × ℚ

/-- The `(text_width, text_height)` pair computed by the scripts:
`draw.textsize(text, font)` when available, else
`(bbox[2]-bbox[0], bbox[3]-bbox[1])` from `font.getbbox(text)`. -/
def measuredSize (f : FontMetrics) (text : PyStr) : ℚ × ℚ :=
  if f.textsizeAvailable then f.textsize text
  else ((f.getbbox text).2.2.1 - (f.getbbox text).1,
        (f.getbbox text).2.2.2 - (f.getbbox text).2.1)

/-- One `draw.text((x, y), text, fill="black", font=font)` call: the point
passed and the text drawn (the fill is the constant black in both scripts). -/
structure DrawCmd where
  x : ℚ
  y : ℚ
  text : PyStr
deriving DecidableEq

/-- A Pillow image: its pixel size and the text-draw commands applied so
far (a fresh template has an empty command list). -/
structure PILImage where
  size : Nat × Nat
  drawn : List DrawCmd
deriving DecidableEq

/-- From variant B, `add_centered_text(text, position, font_size)` (the same
lines appear inline in variant A): measure the text, then draw it at
`(x - text_width/2, y)`. -/
def add_centered_text (img : PILImage) (f : FontMetrics) (text : PyStr)
    (posn : ℚ × ℚ) : PILImage :=
  let text_size := measuredSize f text
  let x_centered := posn.1 - text_size.1 / 2
  { img with drawn := img.drawn ++ [⟨x_centered, posn.2, text⟩] }

/-- C2: for every text with measured width `w` and requested center
`(x, y)`, the compositor issues exactly one draw command, with left edge
`x - w/2` and top edge `y` unchanged — for every measurement oracle (hence
independent of text content and of font size). -/
theorem C2_centering_law (f : FontMetrics) (img : PILImage) (text : PyStr)
    (x y : ℚ) :
    (add_centered_text img f text (x, y)).drawn
      = img.drawn ++ [⟨x - (measuredSize f text).1 / 2, y, text⟩] := rfl

/-!
The variant-B compositor `add_texts_to_image_and_convert_to_pdf` first
copies the opened template (`img_copy = img.copy()`), then draws the name,
the event name and the rank on the copy, in that order.  Its raster part
is modelled here; the PDF part is modelled separately below.
-/

/-- The raster part of `add_texts_to_image_and_convert_to_pdf`: the opened
source image object and the drawn-on copy at the end of the call. -/
structure CompositorResult where
  source_img : PILImage
  img_copy : PILImage
deriving DecidableEq

/-- Pillow `img.copy()`: an independent image with the same content. -/
def imageCopy (img : PILImage) : PILImage := img

/-- Draw the three certificate texts on a fresh copy of the template, in
source order (name, event, rank), each centered by `add_centered_text`. -/
def add_texts_to_image (template : PILImage)
    (fname fevent frank : FontMetrics)
    (name : PyStr) (name_position : ℚ × ℚ)
    (event_name : PyStr) (event_position : ℚ × ℚ)
    (rank : PyStr) (rank_position : ℚ × ℚ) : CompositorResult :=
  let img_copy := imageCopy template
  let img_copy := add_centered_text img_copy fname name name_position
  let img_copy := add_centered_text img_copy fevent event_name event_position
  let img_copy := add_centered_text img_copy frank rank rank_position
  { source_img := template, img_copy := img_copy }

/-- C9: the compositor draws only on the fresh copy: after the call the
source template object is unchanged, and the copy is the template's
content plus exactly the three issued draw commands. -/
theorem C9_template_never_mutated (template : PILImage)
    (fname fevent frank : FontMetrics)
    (name : PyStr) (name_position : ℚ × ℚ)
    (event_name : PyStr) (event_position : ℚ × ℚ)
    (rank : PyStr) (rank_position : ℚ × ℚ) :
    (add_texts_to_image template fname fevent frank name name_position
        event_name event_position rank rank_position).source_img = template
    ∧ (add_texts_to_image template fname fevent frank name name_position
        event_name event_position rank rank_position).img_copy.size
        = template.size
    ∧ (add_texts_to_image template fname fevent frank name name_position
        event_name event_position rank rank_position).img_copy.drawn
        = template.drawn ++
          [⟨name_position.1 - (measuredSize fname name).1 / 2,
            name_position.2, name⟩,
           ⟨event_position.1 - (measuredSize fevent event_name).1 / 2,
            event_position.2, event_name⟩,
           ⟨rank_position.1 - (measuredSize frank rank).1 / 2,
            rank_position.2, rank⟩] := by
  refine ⟨rfl, rfl, ?_⟩
  simp [add_texts_to_image, add_centered_text, imageCopy]

/-!
Page export.  Both scripts create a reportlab canvas with
`pagesize = landscape(letter)`, compute
`ratio = min(width/img_width, height/img_height)`, scale the image by
`ratio` on both axes and place it at
`((width - img_width*ratio)/2, (height - img_height*ratio)/2)` via
`drawImage`.  `letter` is the reportlab constant (612, 792) points and
`landscape` swaps the pair so the larger dimension comes first.
-/

/-- reportlab `letter`: 612 x 792 points. -/
def letter : ℚ × ℚ := (612, 792)

/-- reportlab `landscape(pagesize)`: returns the page with the larger
dimension first. -/
def landscape (pagesize : ℚ × ℚ) : ℚ × ℚ :=
  if pagesize.1 > pagesize.2 then pagesize else (pagesize.2, pagesize.1)

/-- The geometry handed to `c.drawImage(temp, x, y, width=w, height=h)`:
placement point and drawn size. -/
structure PdfPlacement where
  x : ℚ
  y : ℚ
  w : ℚ
  h : ℚ
deriving DecidableEq

/-- The scaling-and-centering block shared by both scripts (variant A lines
91-109, variant B lines 98-116): ratio, scaled size, centered position. -/
def drawImagePlacement (pagesize : ℚ × ℚ) (img_width img_height : ℚ) :
    PdfPlacement :=
  let r := min (pagesize.1 / img_width) (pagesize.2 / img_height)
  let w := img_width * r
  let h := img_height * r
  { x := (pagesize.1 - w) / 2, y := (pagesize.2 - h) / 2, w := w, h := h }

/-- C3: on the fixed landscape letter page (792 x 612), a W x H raster is
scaled uniformly by `r = min(792/W, 612/H)`, so the placed image measures
`r*W` by `r*H`, lies entirely on the page, and has equal opposite margins
(equivalently, its corner sits at `((792 - r*W)/2, (612 - r*H)/2)`). -/
theorem C3_scaling_law (W H : ℚ) (hW : 0 < W) (hH : 0 < H) :
    (drawImagePlacement (landscape letter) W H).w = min (792 / W) (612 / H) * W
    ∧ (drawImagePlacement (landscape letter) W H).h = min (792 / W) (612 / H) * H
    ∧ (drawImagePlacement (landscape letter) W H).x
        = (792 - min (792 / W) (612 / H) * W) / 2
    ∧ (drawImagePlacement (landscape letter) W H).y
        = (612 - min (792 / W) (612 / H) * H) / 2
    ∧ 0 ≤ (drawImagePlacement (landscape letter) W H).x
    ∧ 0 ≤ (drawImagePlacement (landscape letter) W H).y
    ∧ (drawImagePlacement (landscape letter) W H).x
        + (drawImagePlacement (landscape letter) W H).w ≤ 792
    ∧ (drawImagePlacement (landscape letter) W H).y
        + (drawImagePlacement (landscape letter) W H).h ≤ 612
    ∧ (drawImagePlacement (landscape letter) W H).x
        = 792 - ((drawImagePlacement (landscape letter) W H).x
          + (drawImagePlacement (landscape letter) W H).w)
    ∧ (drawImagePlacement (landscape letter) W H).y
        = 612 - ((drawImagePlacement (landscape letter) W H).y
          + (drawImagePlacement (landscape letter) W H).h) := by
  have hpage : landscape letter = ((792 : ℚ), (612 : ℚ)) := by
    norm_num [landscape, letter]
  have hwle : W * min (792 / W) (612 / H) ≤ 792 := by
    calc W * min (792 / W) (612 / H) ≤ W * (792 / W) :=
          mul_le_mul_of_nonneg_left (min_le_left _ _) (le_of_lt hW)
      _ = 792 := by field_simp
  have hhle : H * min (792 / W) (612 / H) ≤ 612 := by
    calc H * min (792 / W) (612 / H) ≤ H * (612 / H) :=
          mul_le_mul_of_nonneg_left (min_le_right _ _) (le_of_lt hH)
      _ = 612 := by field_simp
  rw [hpage]
  unfold drawImagePlacement
  refine ⟨by ring, by ring, by ring, by ring, ?_, ?_, ?_, ?_, by ring, by ring⟩
  · simp only
    linarith
  · simp only
    linarith
  · simp only
    linarith
  · simp only
    linarith

/-- Witness for C3 at the spec's end-to-end example: a 1000 x 600 raster. -/
theorem C3_scaling_law_witness :
    (0 : ℚ) < 1000 ∧ (0 : ℚ) < 600
    ∧ ((drawImagePlacement (landscape letter) 1000 600).w
          = min (792 / 1000) (612 / 600) * 1000
        ∧ (drawImagePlacement (landscape letter) 1000 600).h
          = min (792 / 1000) (612 / 600) * 600
        ∧ (drawImagePlacement (landscape letter) 1000 600).x
          = (792 - min (792 / 1000) (612 / 600) * 1000) / 2
        ∧ (drawImagePlacement (landscape letter) 1000 600).y
          = (612 - min (792 / 1000) (612 / 600) * 600) / 2
        ∧ 0 ≤ (drawImagePlacement (landscape letter) 1000 600).x
        ∧ 0 ≤ (drawImagePlacement (landscape letter) 1000 600).y
        ∧ (drawImagePlacement (landscape letter) 1000 600).x
          + (drawImagePlacement (landscape letter) 1000 600).w ≤ 792
        ∧ (drawImagePlacement (landscape letter) 1000 600).y
          + (drawImagePlacement (landscape letter) 1000 600).h ≤ 612
        ∧ (drawImagePlacement (landscape letter) 1000 600).x
          = 792 - ((drawImagePlacement (landscape letter) 1000 600).x
            + (drawImagePlacement (landscape letter) 1000 600).w)
        ∧ (drawImagePlacement (landscape letter) 1000 600).y
          = 612 - ((drawImagePlacement (landscape letter) 1000 600).y
            + (drawImagePlacement (landscape letter) 1000 600).h)) :=
  ⟨by norm_num, by norm_num,
    C3_scaling_law 1000 600 (by norm_num) (by norm_num)⟩

/-!
Batch driver.  `process_names_from_file` reads the names file, keeps the
lines that are non-empty after stripping, title-cases each, calls the
render function once per kept line, and counts successes and failures.
The render is an oracle returning what
`add_text(s)_to_image_and_convert_to_pdf` returns: the output path string,
or `none` for the `return None` taken on an internal exception.  The
names source is `none` when `open()` itself raises, hitting the outer
`except` with both counters still at their initial zero.  The list of
names passed to the render is carried along as an explicit trace so that
the theorems can speak about which items were attempted.
-/

/-- Python truthiness of the render result tested by `if result:`:
`None` and the empty string are falsy. -/
def truthy : Option PyStr → Bool
  | none => false
  | some s => !s.isEmpty

/-- The list `[line.strip() for line in file if line.strip()]`: the stripped
lines that are non-empty after stripping. -/
def parseNames (fileLines : List PyStr) : List PyStr :=
  (fileLines.map strip).filter (fun l => !l.isEmpty)

/-- One iteration of the driver loop: title-case the raw name, render it,
and bump the matching counter; the third component records every name
handed to the render, in order. -/
def batchStep (render : PyStr → Option PyStr)
    (acc : Nat × Nat × List PyStr) (raw : PyStr) : Nat × Nat × List PyStr :=
  let properly_cased_name := title_case_name raw
  if truthy (render properly_cased_name) then
    (acc.1 + 1, acc.2.1, acc.2.2 ++ [properly_cased_name])
  else
    (acc.1, acc.2.1 + 1, acc.2.2 ++ [properly_cased_name])

/-- The driver loop over the kept names, starting from
`successful = failed = 0`. -/
def batchLoop (render : PyStr → Option PyStr) (names : List PyStr) :
    Nat × Nat × List PyStr :=
  names.foldl (batchStep render) (0, 0, [])

/-- Outcome of `process_names_from_file`: either the outer `except` fired
while opening/reading the names file (carrying the counters and attempt
trace at that moment), or the loop completed with its final tally. -/
inductive BatchOutcome where
  | fileError (successful failed : Nat) (attempted : List PyStr)
  | completed (successful failed total : Nat) (attempted : List PyStr)
deriving DecidableEq

/-- The driver `process_names_from_file`: `successful = failed = 0`; open the source
(`none` models an unreadable file, whose exception reaches the outer
`except` before any name is read); otherwise filter, loop, and report. -/
def process_names_from_file (render : PyStr → Option PyStr)
    (source : Option (List PyStr)) : BatchOutcome :=
  match source with
  | none => .fileError 0 0 []
  | some fileLines =>
    let names := parseNames fileLines
    let res := batchLoop render names
    .completed res.1 res.2.1 names.length res.2.2

theorem batchLoop_invariant (render : PyStr → Option PyStr) :
    ∀ (names : List PyStr) (acc : Nat × Nat × List PyStr),
      (names.foldl (batchStep render) acc).1
          + (names.foldl (batchStep render) acc).2.1
        = acc.1 + acc.2.1 + names.length
      ∧ (names.foldl (batchStep render) acc).2.2
        = acc.2.2 ++ names.map title_case_name
  | [], acc => by simp
  | raw :: names, acc => by
    rw [List.foldl_cons]
    obtain ⟨ih1, ih2⟩ := batchLoop_invariant render names (batchStep render acc raw)
    by_cases h : truthy (render (title_case_name raw)) = true
    · rw [ih1, ih2]
      simp [batchStep, h]
      omega
    · rw [ih1, ih2]
      simp [batchStep, h]
      omega

/-- C4: the driver keeps exactly the lines that are non-empty after
stripping, attempts every kept item (in order, independently of render
failures), and ends with `successful + failed = total`, the number of
non-blank stripped lines. -/
theorem C4_batch_tally (render : PyStr → Option PyStr)
    (fileLines : List PyStr) :
    process_names_from_file render (some fileLines)
      = .completed (batchLoop render (parseNames fileLines)).1
          (batchLoop render (parseNames fileLines)).2.1
          (parseNames fileLines).length
          (batchLoop render (parseNames fileLines)).2.2
    ∧ (batchLoop render (parseNames fileLines)).1
        + (batchLoop render (parseNames fileLines)).2.1
      = (parseNames fileLines).length
    ∧ (batchLoop render (parseNames fileLines)).2.2
      = (parseNames fileLines).map title_case_name
    ∧ (parseNames fileLines).length
      = (fileLines.filter (fun l => !(strip l).isEmpty)).length := by
  obtain ⟨h1, h2⟩ :=
    batchLoop_invariant render (parseNames fileLines) (0, 0, [])
  refine ⟨rfl, ?_, ?_, ?_⟩
  · simpa using h1
  · simpa using h2
  · simp only [parseNames, List.filter_map, List.length_map]
    congr 1

/-- C8: when the names source cannot be opened, the batch reports the
error with both counters zero and an empty attempt trace — no render was
invoked, whatever the render oracle would have done. -/
theorem C8_unreadable_source (render : PyStr → Option PyStr) :
    process_names_from_file render none = .fileError 0 0 [] := rfl

/-!
Output naming.  Both scripts build the PDF path with
`f"{text.strip().replace(' ', '_')}.pdf"` — note `replace(' ', '_')`
replaces only the space character U+0020, not every whitespace character.
The canvas then writes to that path, so a later item with the same derived
name overwrites the earlier file; the filesystem is modelled as a map from
path to written content.
-/

/-- Python `s.replace(a, b)` for single code points. -/
def replaceChar (a b : Nat) (s : PyStr) : PyStr :=
  s.map (fun c => if c = a then b else c)

/-- The code points of the extension `.pdf`. -/
def pdfExt : PyStr := [46, 112, 100, 102]

/-- The output path from the source:
`f"{text.strip().replace(' ', '_')}.pdf"` (95 is the underscore). -/
def output_pdf_name (text : PyStr) : PyStr :=
  replaceChar 32 95 (strip text) ++ pdfExt

/-- Modelled from the claim wording (for comparison only): the trimmed
text with EVERY internal whitespace character replaced by an underscore,
plus the extension. -/
def spec_output_name (text : PyStr) : PyStr :=
  (strip text).map (fun c => if isSpace c then 95 else c) ++ pdfExt

/-- Writing a file: the store afterwards maps the written path to the new
content and every other path to its previous content. -/
def writeStore (store : PyStr → Option PyStr) (path content : PyStr) :
    PyStr → Option PyStr :=
  fun q => if q = path then some content else store q

/-- C6 counterexample: for the text A TAB B (code points 65, 9, 66) the
code keeps the internal tab, while the claimed rule would replace it with
an underscore, so the claim fails as stated. -/
theorem C6_counterexample :
    output_pdf_name [65, 9, 66] ≠ spec_output_name [65, 9, 66]
    ∧ output_pdf_name [65, 9, 66] = [65, 9, 66] ++ pdfExt
    ∧ spec_output_name [65, 9, 66] = [65, 95, 66] ++ pdfExt := by
  refine ⟨?_, ?_, ?_⟩ <;> decide

/-- Every code point of a normalized name is either a space (32) or a
non-whitespace character.  The joiner inserts only 32s and the split
tokens are whitespace-free, and `capitalize` preserves that. -/
theorem title_case_name_space_chars (s : PyStr) :
    ∀ c ∈ title_case_name s, c = 32 ∨ isSpace c = false := by
  have hjoin : ∀ ws : List PyStr, ∀ c ∈ joinSpace ws,
      c = 32 ∨ ∃ w ∈ ws, c ∈ w := by
    intro ws
    induction ws with
    | nil => intro c hc; exact absurd hc (by simp [joinSpace])
    | cons w ws ih =>
      intro c hc
      cases ws with
      | nil =>
        right
        exact ⟨w, by simp, by simpa [joinSpace] using hc⟩
      | cons w2 ws2 =>
        have hc2 : c ∈ w ++ 32 :: joinSpace (w2 :: ws2) := hc
        rcases List.mem_append.mp hc2 with hw | hrest
        · exact Or.inr ⟨w, by simp, hw⟩
        · rcases List.mem_cons.mp hrest with rfl | hj
          · exact Or.inl rfl
          · rcases ih c hj with h32 | ⟨v, hv, hcv⟩
            · exact Or.inl h32
            · exact Or.inr ⟨v, List.mem_cons_of_mem _ hv, hcv⟩
  intro c hc
  rcases hjoin _ c hc with h32 | ⟨w, hw, hcw⟩
  · exact Or.inl h32
  · right
    rcases List.mem_map.mp hw with ⟨v, hv, rfl⟩
    obtain ⟨hne, hvc⟩ := pySplit_tokens (strip s) v hv
    rcases v with _ | ⟨d, ds⟩
    · exact absurd rfl hne
    · rcases List.mem_cons.mp hcw with rfl | hcw
      · exact isSpace_upperAscii (hvc d (by simp))
      · rcases List.mem_map.mp hcw with ⟨e, he, rfl⟩
        exact isSpace_lowerAscii (hvc e (List.mem_cons_of_mem _ he))

theorem mem_strip_subset {s : PyStr} {c : Nat} (hc : c ∈ strip s) : c ∈ s := by
  unfold strip at hc
  rw [List.mem_reverse] at hc
  have h1 := (List.dropWhile_sublist isSpace).mem hc
  rw [List.mem_reverse] at h1
  exact (List.dropWhile_sublist isSpace).mem h1

/-- C6 amended: the output name is the trimmed text with each internal
SPACE (U+0020) replaced by an underscore plus the extension — other
whitespace characters are kept as-is; texts produced by the name
normalizer contain no whitespace other than spaces, so for them the
original whitespace-replacing reading coincides with the code; and a
second item writing the same derived name overwrites the first. -/
theorem C6_output_name_rule (text : PyStr) (store : PyStr → Option PyStr)
    (c1 c2 : PyStr) :
    output_pdf_name text = replaceChar 32 95 (strip text) ++ pdfExt
    ∧ (∀ s : PyStr, output_pdf_name (title_case_name s)
        = spec_output_name (title_case_name s))
    ∧ writeStore (writeStore store (output_pdf_name text) c1)
        (output_pdf_name text) c2 (output_pdf_name text) = some c2 := by
  refine ⟨rfl, ?_, by simp [writeStore]⟩
  intro s
  unfold output_pdf_name spec_output_name replaceChar
  congr 1
  apply List.map_congr_left
  intro c hc
  rcases title_case_name_space_chars s c (mem_strip_subset hc) with rfl | hns
  · simp [isSpace]
  · have hc32 : c ≠ 32 := by
      intro h
      rw [h] at hns
      simp [isSpace] at hns
    simp [hc32, hns]

/-!
Font resolution (variant A lines 37-67; variant B's `add_centered_text`
runs the same default-then-fallback tail with no explicit path).  The
filesystem and the font loader are oracles: whether `os.path.exists`
holds of a path and whether `ImageFont.truetype(path, size)` succeeds.
The `try/except` structure of the source is:
explicit path given and existing -> `truetype(explicit)`; any exception
is caught by the outer handler, which uses `ImageFont.load_default()`.
Otherwise the platform-default path is tried, and on exception the inner
handler uses `ImageFont.load_default()`.
-/

/-- The operating-system family reported by `sys.platform`. -/
inductive OsFamily where
  | windows
  | darwin
  | linux
deriving DecidableEq

/-- The `system_fonts` table: `arial.ttf` on Windows,
`/Library/Fonts/Arial.ttf` on macOS,
`/usr/share/fonts/truetype/dejavu/DejaVuSans.ttf` on Linux
(code points of those path strings). -/
def system_fonts : OsFamily → PyStr
  | .windows => [97, 114, 105, 97, 108, 46, 116, 116, 102]
  | .darwin => [47, 76, 105, 98, 114, 97, 114, 121, 47, 70, 111, 110, 116,
      115, 47, 65, 114, 105, 97, 108, 46, 116, 116, 102]
  | .linux => [47, 117, 115, 114, 47, 115, 104, 97, 114, 101, 47, 102, 111,
      110, 116, 115, 47, 116, 114, 117, 101, 116, 121, 112, 101, 47, 100,
      101, 106, 97, 118, 117, 47, 68, 101, 106, 97, 86, 117, 83, 97, 110,
      115, 46, 116, 116, 102]

/-- Environment oracle: `os.path.exists` and whether
`ImageFont.truetype(path, size)` loads without raising. -/
structure FontEnv where
  pathExists : PyStr → Bool
  truetypeOk : PyStr → Int → Bool

/-- The font object the render ends up drawing with. -/
inductive LoadedFont where
  | truetype (path : PyStr) (size : Int)
  | load_default
deriving DecidableEq

/-- The platform-default branch: try
`ImageFont.truetype(default_font, size)`, fall back to
`ImageFont.load_default()` on exception. -/
def resolve_default_font (env : FontEnv) (os : OsFamily) (font_size : Int) :
    LoadedFont :=
  if env.truetypeOk (system_fonts os) font_size then
    .truetype (system_fonts os) font_size
  else .load_default

/-- Variant A font handling: `if font_path and os.path.exists(font_path)`
(an empty or absent path is falsy) load the explicit font — an exception
there reaches the outer handler, which takes `load_default()`; otherwise
run the platform-default branch. -/
def resolve_font (env : FontEnv) (os : OsFamily) (font_path : Option PyStr)
    (font_size : Int) : LoadedFont :=
  match font_path with
  | some p =>
    if p ≠ [] ∧ env.pathExists p = true then
      if env.truetypeOk p font_size then .truetype p font_size
      else .load_default
    else resolve_default_font env os font_size
  | none => resolve_default_font env os font_size

/-- C7: font resolution follows explicit-if-provided-and-existing, then
platform default, then the built-in fallback, and it always yields a
font — a load failure never escalates, it lands on `load_default`. -/
theorem C7_font_resolution (env : FontEnv) (os : OsFamily)
    (font_path : Option PyStr) (font_size : Int) :
    (∀ p, font_path = some p → p ≠ [] → env.pathExists p = true →
      env.truetypeOk p font_size = true →
      resolve_font env os font_path font_size = .truetype p font_size)
    ∧ (∀ p, font_path = some p → p ≠ [] → env.pathExists p = true →
        env.truetypeOk p font_size = false →
        resolve_font env os font_path font_size = .load_default)
    ∧ ((font_path.elim True fun p => p = [] ∨ env.pathExists p = false) →
        env.truetypeOk (system_fonts os) font_size = true →
        resolve_font env os font_path font_size
          = .truetype (system_fonts os) font_size)
    ∧ ((font_path.elim True fun p => p = [] ∨ env.pathExists p = false) →
        env.truetypeOk (system_fonts os) font_size = false →
        resolve_font env os font_path font_size = .load_default) := by
  refine ⟨?_, ?_, ?_, ?_⟩
  · rintro p rfl hne hex hok
    simp [resolve_font, hne, hex, hok]
  · rintro p rfl hne hex hok
    simp [resolve_font, hne, hex, hok]
  · intro hno hok
    cases font_path with
    | none => simp [resolve_font, resolve_default_font, hok]
    | some p =>
      have hfail : ¬(p ≠ [] ∧ env.pathExists p = true) := by
        rcases hno with h | h
        · simp [h]
        · simp [h]
      simp [resolve_font, hfail, resolve_default_font, hok]
  · intro hno hok
    cases font_path with
    | none => simp [resolve_font, resolve_default_font, hok]
    | some p =>
      have hfail : ¬(p ≠ [] ∧ env.pathExists p = true) := by
        rcases hno with h | h
        · simp [h]
        · simp [h]
      simp [resolve_font, hfail, resolve_default_font, hok]

/-- Witness for C7: an environment in which every path exists and every
truetype load succeeds resolves an explicit one-character path to that
font. -/
theorem C7_font_resolution_witness :
    resolve_font ⟨fun _ => true, fun _ _ => true⟩ .linux (some [97]) 30
      = .truetype [97] 30 :=
  (C7_font_resolution ⟨fun _ => true, fun _ _ => true⟩ .linux
    (some [97]) 30).1 [97] rfl (by decide) rfl rfl

/-!
Command-line entry points.  `sys.argv` is modelled as the list of
argument strings including the script name at index 0, and Python `int()`
as an oracle returning `none` on `ValueError`.  An out-of-range
`sys.argv[i]` (IndexError) and a failed `int()` (ValueError) are both
uncaught in `main`, so both are modelled as the `crash` outcome.

Variant A guards `len(sys.argv) < 4` and then reads `sys.argv[1..4]`
(plus optional 5 and 6); variant B guards `len(sys.argv) < 11` and then
reads `sys.argv[1..13]`.
-/

/-- What variant A `main` does before calling the batch. -/
inductive MainOutcomeA where
  | usage
  | crash
  | run (image_path names_file : PyStr) (x_pos y_pos : Int)
      (font_path : Option PyStr) (font_size : Int)
deriving DecidableEq

/-- What variant B `main` does before calling the batch. -/
inductive MainOutcomeB where
  | usage
  | crash
  | run (image_path names_file : PyStr) (name_x name_y name_font_size : Int)
      (event_name : PyStr) (event_x event_y event_font_size : Int)
      (rank : PyStr) (rank_x rank_y rank_font_size : Int)
deriving DecidableEq

/-- Variant A `main` (src/script.py lines 193-213): usage when
`len(sys.argv) < 4`; otherwise read the four positional arguments (note
`sys.argv[4]` needs five entries), the optional font path when
`len >= 6`, and the optional font size (default 30) when `len >= 7`. -/
def mainA (parse : PyStr → Option Int) (argv : List PyStr) : MainOutcomeA :=
  if argv.length < 4 then .usage
  else
    match argv.get? 1, argv.get? 2, (argv.get? 3).bind parse,
        (argv.get? 4).bind parse with
    | some image_path, some names_file, some x_pos, some y_pos =>
      let font_path := if 6 ≤ argv.length then argv.get? 5 else none
      match (if 7 ≤ argv.length then (argv.get? 6).bind parse
             else some 30) with
      | some font_size =>
        .run image_path names_file x_pos y_pos font_path font_size
      | none => .crash
    | _, _, _, _ => .crash

/-- Variant B `main` (src/Certificate for Winners/script.py lines
214-262): usage when `len(sys.argv) < 11`; otherwise read thirteen
positional arguments (note `sys.argv[13]` needs fourteen entries). -/
def mainB (parse : PyStr → Option Int) (argv : List PyStr) : MainOutcomeB :=
  if argv.length < 11 then .usage
  else
    match argv.get? 1, argv.get? 2, (argv.get? 3).bind parse,
        (argv.get? 4).bind parse, (argv.get? 5).bind parse with
    | some image_path, some names_file, some name_x, some name_y,
        some name_font_size =>
      match argv.get? 6, (argv.get? 7).bind parse, (argv.get? 8).bind parse,
          (argv.get? 9).bind parse with
      | some event_name, some event_x, some event_y, some event_font_size =>
        match argv.get? 10, (argv.get? 11).bind parse,
            (argv.get? 12).bind parse, (argv.get? 13).bind parse with
        | some rank, some rank_x, some rank_y, some rank_font_size =>
          .run image_path names_file name_x name_y name_font_size
            event_name event_x event_y event_font_size
            rank rank_x rank_y rank_font_size
        | _, _, _, _ => .crash
      | _, _, _, _ => .crash
    | _, _, _, _, _ => .crash

/-- C5 (bug): with some required argument missing, `main` can crash with
an IndexError instead of printing usage.  Variant A invoked with exactly
three user arguments (`argv` length 4, below the four required) passes
the `len < 4` guard and crashes reading `sys.argv[4]`; with two user
arguments it does print usage.  Variant B invoked with ten user
arguments (below the thirteen required) passes the `len < 11` guard and
crashes reading `sys.argv[11]`; with nine it does print usage.  All four
facts hold for every behavior of `int()`. -/
theorem C5_missing_args_crash :
    (∀ parse : PyStr → Option Int,
      mainA parse [[115], [105], [110], [120]] = .crash)
    ∧ (∀ parse : PyStr → Option Int,
      mainA parse [[115], [105], [110]] = .usage)
    ∧ (∀ parse : PyStr → Option Int,
      mainB parse [[115], [105], [110], [120], [121], [122], [101], [119],
        [104], [113], [114]] = .crash)
    ∧ (∀ parse : PyStr → Option Int,
      mainB parse [[115], [105], [110], [120], [121], [122], [101], [119],
        [104], [113]] = .usage) := by
  refine ⟨?_, ?_, ?_, ?_⟩
  · intro parse
    unfold mainA
    rcases h3 : parse [120] with _ | v <;> simp [h3]
  · intro parse
    rfl
  · intro parse
    unfold mainB
    rcases h3 : parse [120] with _ | v3 <;>
      rcases h4 : parse [121] with _ | v4 <;>
      rcases h5 : parse [122] with _ | v5 <;>
      rcases h7 : parse [119] with _ | v7 <;>
      rcases h8 : parse [104] with _ | v8 <;>
      rcases h9 : parse [113] with _ | v9 <;>
      simp [h3, h4, h5, h7, h8, h9]
  · intro parse
    rfl
